import Mathlib

/-!
Verification of the interval pipeline of `tone_processor.py`
(silence-log parsing, silence pairing, speech inversion, padding,
segment-count fitting, even splitting, export combination).

Times are modelled as exact rationals (the spec's data model speaks of
non-negative real seconds); Python floats are embedded as `ℚ`.
-/

/-- A `(start, end)` pair of timestamps, as used throughout the pipeline. -/
abbrev TimedInterval : Type := ℚ × ℚ

/-- Ordering of segments by their start, the sort key used by
`_fit_segments_to_target` (`sorted(segments, key=lambda item: item[0])`). -/
def startLE (a b : TimedInterval) : Prop := a.1 ≤ b.1

instance : DecidableRel startLE := fun a b => inferInstanceAs (Decidable (a.1 ≤ b.1))

instance : IsTotal TimedInterval startLE := ⟨fun a b => le_total a.1 b.1⟩

instance : IsTrans TimedInterval startLE := ⟨fun _ _ _ h h' => le_trans h h'⟩

/-- `MIN_SEGMENT_DURATION = 0.05` from the source. -/
def MIN_SEGMENT_DURATION : ℚ := 5 / 100

/-- `MERGE_GAPS_SECONDS = [i / 1000 for i in range(60, 301, 10)]` from the source:
the thresholds 0.060, 0.070, …, 0.300. -/
def MERGE_GAPS_SECONDS : List ℚ := (List.range' 60 25 10).map (fun n => (n : ℚ) / 1000)

/-- Loop body of `_merge_adjacent`: `cur` is the trailing element `merged[-1]`
of the Python accumulator, `rest` the unprocessed segments.  For each `(s, e)`,
if `s - cur.end <= gap` the trailing element becomes
`(cur.start, max cur.end e)`; otherwise `cur` is emitted and `(s, e)` starts a
new trailing element. -/
def mergeAdjacentAux (g : ℚ) (cur : TimedInterval) : List TimedInterval → List TimedInterval
  | [] => [cur]
  | (s, e) :: rest =>
    if s - cur.2 ≤ g then mergeAdjacentAux g (cur.1, max cur.2 e) rest
    else cur :: mergeAdjacentAux g (s, e) rest

/-- `_merge_adjacent(segments, gap_size)`.  The Python function indexes
`segments[0]`, so it is never called on an empty list (its only caller checks
this); the `[]` case here is dead code kept only to make the function total. -/
def mergeAdjacent (segments : List TimedInterval) (g : ℚ) : List TimedInterval :=
  match segments with
  | [] => []
  | h :: t => mergeAdjacentAux g h t

/-- The three distinct `raise RuntimeError` sites of `_fit_segments_to_target`:
`noSegments` is "No segments available to fit.", `insufficientSegments` is
"Detected only {M} segments but need {N}. …", `unableToReduce` is
"Unable to reduce segments to exactly {N}; …". -/
inductive FitError
  | noSegments
  | insufficientSegments
  | unableToReduce
deriving DecidableEq

/-- The `for gap in MERGE_GAPS_SECONDS` loop of `_fit_segments_to_target`:
each pass merges the previous `best`, and the loop breaks at the first pass
whose result has at most `target` elements. -/
def fitLoop (best : List TimedInterval) (gaps : List ℚ) (target : ℕ) : List TimedInterval :=
  match gaps with
  | [] => best
  | g :: rest =>
    if (mergeAdjacent best g).length ≤ target then mergeAdjacent best g
    else fitLoop (mergeAdjacent best g) rest target

/-- The tail of `_fit_segments_to_target` after the merge loop: truncate to
`target` when still too many, raise when too few, otherwise return. -/
def fitFinish (best : List TimedInterval) (target : ℕ) : Except FitError (List TimedInterval) :=
  let best2 := if target < best.length then best.take target else best
  if best2.length < target then Except.error FitError.unableToReduce
  else Except.ok best2

/-- `_fit_segments_to_target(segments)` with `target = clips.count`.
Raised `RuntimeError`s are modelled as `Except.error`. -/
def fitSegmentsToTarget (segments : List TimedInterval) (target : ℕ) :
    Except FitError (List TimedInterval) :=
  if segments = [] then Except.error FitError.noSegments
  else if (List.insertionSort startLE segments).length = target then
    Except.ok (List.insertionSort startLE segments)
  else if (List.insertionSort startLE segments).length < target then
    Except.error FitError.insufficientSegments
  else
    fitFinish (fitLoop (List.insertionSort startLE segments) MERGE_GAPS_SECONDS target) target

/-- Round-half-to-even of a rational to an integer, the behaviour of Python's
builtin `round` on the exact value. -/
def roundHalfEven (x : ℚ) : ℤ :=
  if x - Int.floor x < 1 / 2 then Int.floor x
  else if 1 / 2 < x - Int.floor x then Int.floor x + 1
  else if Int.floor x % 2 = 0 then Int.floor x else Int.floor x + 1

/-- `round(x, 5)` from `_split_evenly`. -/
def round5 (x : ℚ) : ℚ := (roundHalfEven (x * 100000) : ℚ) / 100000

/-- `_split_evenly(duration)` with `count = clips.count`: segment `idx` is
`(round(idx * L, 5), round(end, 5))` where `L = duration / count` and the last
segment's raw end is `duration` itself. -/
def splitEvenly (duration : ℚ) (count : ℕ) : List TimedInterval :=
  (List.range count).map (fun idx : ℕ =>
    (round5 ((idx : ℚ) * (duration / (count : ℚ))),
     round5 (if idx = count - 1 then duration
       else ((idx : ℚ) + 1) * (duration / (count : ℚ)))))

/-- `_apply_padding(segments, duration)` with `pad = detect.pad`: every segment
is widened by `pad` on both sides, clamped to `[0, duration]`, and kept only if
the clamped length is at least `MIN_SEGMENT_DURATION`. -/
def applyPadding (pad : ℚ) (segments : List TimedInterval) (duration : ℚ) : List TimedInterval :=
  match segments with
  | [] => []
  | (s, e) :: rest =>
    if MIN_SEGMENT_DURATION ≤ min duration (e + pad) - max 0 (s - pad) then
      (max 0 (s - pad), min duration (e + pad)) :: applyPadding pad rest duration
    else applyPadding pad rest duration

/-- Loop of `_silences_to_speech`: `prevEnd` is `previous_end`.  A speech
segment is emitted for every gap above the 1 ms epsilon, and a trailing
segment up to `duration` is emitted under the same epsilon test. -/
def speechLoop (duration : ℚ) (prevEnd : ℚ) : List TimedInterval → List TimedInterval
  | [] => if 1 / 1000 < duration - prevEnd then [(prevEnd, duration)] else []
  | (s, e) :: rest =>
    if 1 / 1000 < s - prevEnd then (prevEnd, s) :: speechLoop duration e rest
    else speechLoop duration e rest

/-- `_silences_to_speech(silences, duration)`. -/
def silencesToSpeech (silences : List TimedInterval) (duration : ℚ) : List TimedInterval :=
  speechLoop duration 0 silences

/-- Ordering of tagged silence events by timestamp, the sort key used by
`_pair_silences` (`events.sort(key=lambda item: item[1])`).  The tag is `true`
for a `silence_start` event and `false` for a `silence_end` event. -/
def eventLE (a b : Bool × ℚ) : Prop := a.2 ≤ b.2

instance : DecidableRel eventLE := fun a b => inferInstanceAs (Decidable (a.2 ≤ b.2))

instance : IsTotal (Bool × ℚ) eventLE := ⟨fun a b => le_total a.2 b.2⟩

instance : IsTrans (Bool × ℚ) eventLE := ⟨fun _ _ _ h h' => le_trans h h'⟩

/-- The tagged event list of `_pair_silences`: all starts (tag `true`) followed
by all ends (tag `false`), each in encounter order. -/
def eventList (starts ends : List ℚ) : List (Bool × ℚ) :=
  starts.map (fun v => (true, v)) ++ ends.map (fun v => (false, v))

/-- The events sorted by timestamp.  Python's `list.sort` is a stable sort by
the key, as is `insertionSort`, so the two agree including on ties. -/
def sortedEvents (starts ends : List ℚ) : List (Bool × ℚ) :=
  List.insertionSort eventLE (eventList starts ends)

/-- Sweep of `_pair_silences`: `cur` is `current_start` (`none` when no silence
is open).  A start event opens a silence if none is open and is otherwise
ignored; an end event closes `[current_start, t)` using `0.0` when no start is
open; a start left open at the end closes at `duration`. -/
def pairLoop (duration : ℚ) (cur : Option ℚ) : List (Bool × ℚ) → List TimedInterval
  | [] =>
    match cur with
    | none => []
    | some cs => [(cs, duration)]
  | (k, ts) :: rest =>
    if k then
      match cur with
      | none => pairLoop duration (some ts) rest
      | some cs => pairLoop duration (some cs) rest
    else
      (cur.getD 0, ts) :: pairLoop duration none rest

/-- `_pair_silences(starts, ends, duration)`. -/
def pairSilences (starts ends : List ℚ) (duration : ℚ) : List TimedInterval :=
  pairLoop duration none (sortedEvents starts ends)

/-- Instrumentation of the `pairLoop` sweep: `true` iff no end event is ever
processed while no silence start is open (`opn` mirrors
`current_start is not None`).  When this holds the `0.0` fallback of
`_pair_silences` never fires. -/
def noDanglingEnds (opn : Bool) : List (Bool × ℚ) → Bool
  | [] => true
  | (k, _) :: rest => if k then noDanglingEnds true rest else opn && noDanglingEnds false rest

/-- The characters matched by Python's `\s` in a `str` pattern: exactly those
for which `Py_UNICODE_ISSPACE` holds (the same set as `str.isspace` per
character) — the ASCII whitespace `\t \n \v \f \r`, the separators
U+001C–U+001F, the space, NEL U+0085, NBSP U+00A0, Ogham space U+1680, the
Unicode spaces U+2000–U+200A, line/paragraph separators U+2028/U+2029, narrow
NBSP U+202F, medium mathematical space U+205F and ideographic space U+3000. -/
def isSpaceLike (c : Char) : Bool :=
  (0x09 ≤ c.toNat && c.toNat ≤ 0x0d) || (0x1c ≤ c.toNat && c.toNat ≤ 0x1f) ||
  c.toNat = 0x20 || c.toNat = 0x85 || c.toNat = 0xa0 || c.toNat = 0x1680 ||
  (0x2000 ≤ c.toNat && c.toNat ≤ 0x200a) || c.toNat = 0x2028 || c.toNat = 0x2029 ||
  c.toNat = 0x202f || c.toNat = 0x205f || c.toNat = 0x3000

/-- The character class `[0-9.]` of `SILENCE_START_RE` / `SILENCE_END_RE`. -/
def isNumChar (c : Char) : Bool := c.isDigit || c = '.'

/-- One anchored attempt of the regex `key\s*([0-9.]+)` at the head of `line`:
the literal key, then greedily skipped whitespace, then a maximal non-empty run
of `[0-9.]` characters, which is the captured group.  (No backtracking is
possible because `\s` and `[0-9.]` are disjoint.) -/
def matchKeyAt (key line : List Char) : Option (List Char) :=
  if key.isPrefixOf line then
    let tok := ((line.drop key.length).dropWhile isSpaceLike).takeWhile isNumChar
    if tok.isEmpty then none else some tok
  else none

/-- `re.search` of the pattern `key\s*([0-9.]+)`: the leftmost successful
anchored attempt, returning the captured numeric token. -/
def searchKey (key : List Char) : List Char → Option (List Char)
  | [] => none
  | c :: rest =>
    match matchKeyAt key (c :: rest) with
    | some tok => some tok
    | none => searchKey key rest

/-- The literal of `SILENCE_START_RE`. -/
def SILENCE_START_KEY : List Char := "silence_start:".toList

/-- The literal of `SILENCE_END_RE`. -/
def SILENCE_END_KEY : List Char := "silence_end:".toList

/-- The natural number denoted by a list of decimal digits (most significant
first); an empty list denotes 0. -/
def digitsToNat (cs : List Char) : ℕ :=
  cs.foldl (fun acc c => 10 * acc + (c.toNat - 48)) 0

/-- Python's `float()` on a token drawn from the character class `[0-9.]`
(the only tokens the regexes can capture): it succeeds exactly when the token
contains at most one dot and at least one digit, and then denotes the usual
decimal value; otherwise `float` raises `ValueError`, modelled as `none`. -/
def floatOfToken (cs : List Char) : Option ℚ :=
  if cs.count '.' ≤ 1 && cs.any Char.isDigit then
    some ((digitsToNat (cs.takeWhile (fun c => c ≠ '.')) : ℚ) +
      (digitsToNat ((cs.dropWhile (fun c => c ≠ '.')).drop 1) : ℚ) /
        10 ^ ((cs.dropWhile (fun c => c ≠ '.')).drop 1).length)
  else none

/-- One iteration of the `for line in log.splitlines()` loop of
`_parse_silence_log`: the line is searched with both regexes (two independent
`if`s in the source), each match's token is converted with `float`, and a
`ValueError` (modelled `none`) aborts the whole parse. -/
def parseLineInto (acc : List ℚ × List ℚ) (line : List Char) : Option (List ℚ × List ℚ) :=
  match
    (match searchKey SILENCE_START_KEY line with
     | none => some acc
     | some tok =>
       match floatOfToken tok with
       | none => none
       | some v => some (acc.1 ++ [v], acc.2)) with
  | none => none
  | some acc1 =>
    match searchKey SILENCE_END_KEY line with
    | none => some acc1
    | some tok =>
      match floatOfToken tok with
      | none => none
      | some v => some (acc1.1, acc1.2 ++ [v])

/-- The line loop of `_parse_silence_log`, threading the `(starts, ends)`
accumulator. -/
def parseSilenceLogFrom (acc : List ℚ × List ℚ) : List (List Char) → Option (List ℚ × List ℚ)
  | [] => some acc
  | line :: rest =>
    match parseLineInto acc line with
    | none => none
    | some acc' => parseSilenceLogFrom acc' rest

/-- `_parse_silence_log(log)`, taking the log already split into lines
(the `log.splitlines()` of the source). -/
def parseSilenceLog (lines : List (List Char)) : Option (List ℚ × List ℚ) :=
  parseSilenceLogFrom ([], []) lines

/-- State of the output directory as far as `_combine_exports` touches it:
whether the concatenation list file `.tone_concat.txt` exists. -/
structure WorkState where
  concatExists : Bool

/-- `_combine_exports(exports)` as a state transformer on `WorkState`.
`ffmpegOk` models the exit status of the external `ffmpeg` concat call
(`_run` raises on a non-zero status).  The steps mirror the source: the empty
check raises before the list file is created; inside `try` the list file is
written (making it exist); the concat command runs and may raise; the
`finally` block unlinks the file whenever it exists.  The returned value is
`combined_path` on success. -/
def combineExports (exports : List String) (combinedPath : String) (ffmpegOk : Bool)
    (st : WorkState) : Except String String × WorkState :=
  if exports = [] then (Except.error ("No exports available to combine."), st)
  else
    let stWritten : WorkState := ⟨true⟩
    let result : Except String String :=
      if ffmpegOk then Except.ok combinedPath else Except.error ("Command failed")
    let stFinal : WorkState := if stWritten.concatExists then ⟨false⟩ else stWritten
    (result, stFinal)

/-- Sortedness-by-start together with non-overlap, the output invariant the
spec requires of each stage (`interval[i].end <= interval[i+1].start`). -/
def SortedNonoverlap (l : List TimedInterval) : Prop :=
  List.Chain' (fun a b : TimedInterval => a.1 ≤ b.1 ∧ a.2 ≤ b.1) l

/-- Non-overlap of consecutive intervals. -/
def Nonoverlap (l : List TimedInterval) : Prop :=
  List.Chain' (fun a b : TimedInterval => a.2 ≤ b.1) l

/-- Every interval of the list is non-degenerate (`start < end`), the
`TimedInterval` invariant of the spec's data model. -/
def ValidIntervals (l : List TimedInterval) : Prop := ∀ x ∈ l, x.1 < x.2

instance (l : List TimedInterval) : Decidable (ValidIntervals l) :=
  inferInstanceAs (Decidable (∀ x ∈ l, x.1 < x.2))

/-- `x` is the coalescing of a contiguous run of `segs`: its start is the
start of `segs[i]` and its end the end of `segs[j]` for some `i ≤ j`. -/
def coalescedRun (segs : List TimedInterval) (x : TimedInterval) : Prop :=
  ∃ i j p q, i ≤ j ∧ segs.get? i = some p ∧ segs.get? j = some q ∧
    x.1 = p.1 ∧ x.2 = q.2

instance {ε α : Type} [DecidableEq ε] [DecidableEq α] : DecidableEq (Except ε α) :=
  fun x y =>
    match x, y with
    | Except.ok a, Except.ok b =>
      if h : a = b then isTrue (by rw [h]) else isFalse (by intro hc; cases hc; exact h rfl)
    | Except.error a, Except.error b =>
      if h : a = b then isTrue (by rw [h]) else isFalse (by intro hc; cases hc; exact h rfl)
    | Except.ok _, Except.error _ => isFalse (by intro hc; cases hc)
    | Except.error _, Except.ok _ => isFalse (by intro hc; cases hc)

/-! ### Merge-pass monotonicity (claim C4) -/

lemma mergeAdjacentAux_length_anti (t1 t2 : ℚ) (h : t1 ≤ t2) :
    ∀ (rest : List TimedInterval) (c1 c2 : TimedInterval), c1.2 ≤ c2.2 →
      (mergeAdjacentAux t2 c2 rest).length ≤ (mergeAdjacentAux t1 c1 rest).length := by
  intro rest
  induction rest with
  | nil => intro c1 c2 _; simp [mergeAdjacentAux]
  | cons p tl ih =>
    intro c1 c2 hc
    obtain ⟨s, e⟩ := p
    simp only [mergeAdjacentAux]
    by_cases h1 : s - c1.2 ≤ t1
    · have h2 : s - c2.2 ≤ t2 := by linarith
      rw [if_pos h1, if_pos h2]
      exact ih _ _ (max_le_max hc le_rfl)
    · by_cases h2 : s - c2.2 ≤ t2
      · rw [if_neg h1, if_pos h2]
        calc (mergeAdjacentAux t2 (c2.1, max c2.2 e) tl).length
            ≤ (mergeAdjacentAux t1 (s, e) tl).length := ih _ _ (le_max_right _ _)
          _ ≤ (c1 :: mergeAdjacentAux t1 (s, e) tl).length := by
              simp only [List.length_cons]; omega
      · rw [if_neg h1, if_neg h2]
        simp only [List.length_cons]
        exact Nat.succ_le_succ (ih _ _ le_rfl)

/-- **C4.** For every fixed start-sorted input sequence of intervals and any two
gap thresholds `t1 < t2`, one merge pass (`_merge_adjacent`) at `t1` produces at
least as many intervals as one pass at `t2`.  (The proof does not even need the
sortedness hypothesis, which is kept to match the claim.) -/
theorem mergePass_count_antitone (segs : List TimedInterval) (t1 t2 : ℚ)
    (hsorted : List.Chain' startLE segs) (h : t1 < t2) :
    (mergeAdjacent segs t2).length ≤ (mergeAdjacent segs t1).length := by
  cases segs with
  | nil => simp [mergeAdjacent]
  | cons hd tl => exact mergeAdjacentAux_length_anti t1 t2 (le_of_lt h) tl hd hd le_rfl

theorem mergePass_count_antitone_witness :
    List.Chain' startLE [((0 : ℚ), 1), (11/10, 2), (4, 5)] ∧ (1 : ℚ)/10 < 2/10 ∧
    (mergeAdjacent [((0 : ℚ), 1), (11/10, 2), (4, 5)] (2/10)).length ≤
      (mergeAdjacent [((0 : ℚ), 1), (11/10, 2), (4, 5)] (1/10)).length :=
  ⟨List.chain'_cons.2 ⟨by with_unfolding_all decide,
      List.chain'_cons.2 ⟨by with_unfolding_all decide, List.chain'_singleton _⟩⟩,
   by with_unfolding_all decide,
   mergePass_count_antitone _ _ _
     (List.chain'_cons.2 ⟨by with_unfolding_all decide,
        List.chain'_cons.2 ⟨by with_unfolding_all decide, List.chain'_singleton _⟩⟩)
     (by with_unfolding_all decide)⟩

/-! ### Padding (claim C8) -/

/-- **C8.** `_apply_padding` returns exactly the input segments, in order,
mapped to `(max 0 (start - pad), min duration (end + pad))` and filtered by the
50 ms minimum length; consequently every output segment lies inside
`[0, duration]`; and a segment whose padded length is 30 ms is dropped. -/
theorem applyPadding_spec (pad duration : ℚ) (segs : List TimedInterval) :
    applyPadding pad segs duration =
      (segs.map (fun p => (max 0 (p.1 - pad), min duration (p.2 + pad)))).filter
        (fun q => decide (MIN_SEGMENT_DURATION ≤ q.2 - q.1)) ∧
    (∀ x ∈ applyPadding pad segs duration, 0 ≤ x.1 ∧ x.2 ≤ duration) ∧
    applyPadding (1/100) [((1 : ℚ)/10, 11/100)] 1 = [] := by
  have h1 : applyPadding pad segs duration =
      (segs.map (fun p => (max 0 (p.1 - pad), min duration (p.2 + pad)))).filter
        (fun q => decide (MIN_SEGMENT_DURATION ≤ q.2 - q.1)) := by
    induction segs with
    | nil => rfl
    | cons p tl ih =>
      obtain ⟨s, e⟩ := p
      simp only [applyPadding, List.map_cons, List.filter_cons]
      by_cases h : MIN_SEGMENT_DURATION ≤ min duration (e + pad) - max 0 (s - pad)
      · rw [if_pos h, ih]
        simp [h]
      · rw [if_neg h, ih]
        simp [h]
  refine ⟨h1, ?_, by with_unfolding_all decide⟩
  intro x hx
  rw [h1] at hx
  obtain ⟨p, -, rfl⟩ := List.mem_map.1 (List.mem_of_mem_filter hx)
  exact ⟨le_max_left _ _, min_le_left _ _⟩

/-! ### Concat-list cleanup (claim C9) -/

/-- **C9.** The concatenation list file created by `_combine_exports` no longer
exists when the operation finishes, both when the external concat call succeeds
and when it fails (the `finally` block runs on the error path too). -/
theorem combineExports_cleanup (exports : List String) (combinedPath : String)
    (st : WorkState) (h : exports ≠ []) :
    (combineExports exports combinedPath true st).2.concatExists = false ∧
    (combineExports exports combinedPath false st).2.concatExists = false := by
  simp [combineExports, h]

theorem combineExports_cleanup_witness :
    (["clip1"] : List String) ≠ [] ∧
    (combineExports ["clip1"] "combined.mp3" true ⟨false⟩).2.concatExists = false ∧
    (combineExports ["clip1"] "combined.mp3" false ⟨false⟩).2.concatExists = false :=
  ⟨by decide, combineExports_cleanup ["clip1"] "combined.mp3" ⟨false⟩ (by decide)⟩

/-! ### Empty detector output (claim C7) -/

/-- **C7 (amended).** For every duration strictly above the 1 ms epsilon,
`_pair_silences` on empty `starts`/`ends` yields no silences, and
`_silences_to_speech` then yields the single speech segment `[0, duration)`.
(The original claim asked this for every `duration > 0`; it fails for
`0 < duration ≤ 1/1000` because of the epsilon test, see the counterexample.) -/
theorem emptyLog_singleSpeech (duration : ℚ) (h : 1/1000 < duration) :
    pairSilences [] [] duration = [] ∧
    silencesToSpeech (pairSilences [] [] duration) duration = [(0, duration)] := by
  have hp : pairSilences [] [] duration = [] := rfl
  refine ⟨hp, ?_⟩
  rw [hp]
  simp only [silencesToSpeech, speechLoop, sub_zero]
  rw [if_pos h]

theorem emptyLog_singleSpeech_witness :
    (1 : ℚ)/1000 < 5 ∧ pairSilences [] [] 5 = [] ∧
    silencesToSpeech (pairSilences [] [] 5) 5 = [(0, 5)] :=
  ⟨by with_unfolding_all decide, emptyLog_singleSpeech 5 (by with_unfolding_all decide)⟩

theorem claim7_counterexample :
    (0 : ℚ) < 1/1000 ∧
    pairSilences [] [] (1/1000) = [] ∧
    silencesToSpeech (pairSilences [] [] (1/1000)) (1/1000) ≠ [((0 : ℚ), 1/1000)] := by
  with_unfolding_all decide

/-! ### Even splitting (claim C10) -/

lemma round5_zero : round5 0 = 0 := by
  have h0 : ((0 : ℚ) * 100000) = 0 := by ring
  simp [round5, roundHalfEven, h0]

/-- **C10 (amended).** `_split_evenly` returns exactly `count` segments, each
segment's end equals the next segment's start, the first segment starts at 0,
and the last segment's end is the probed duration rounded to 5 decimal places
(`round(duration, 5)` — equal to the duration itself only when the duration has
at most 5 decimals; the original claim asserted it is exactly the duration,
see the counterexample). -/
theorem splitEvenly_spec (duration : ℚ) (count : ℕ) (hc : 0 < count) :
    (splitEvenly duration count).length = count ∧
    List.Chain' (fun a b : TimedInterval => a.2 = b.1) (splitEvenly duration count) ∧
    (splitEvenly duration count).head?.map Prod.fst = some 0 ∧
    (splitEvenly duration count).getLast?.map Prod.snd = some (round5 duration) := by
  obtain ⟨n, rfl⟩ : ∃ n, count = n + 1 := ⟨count - 1, (Nat.succ_pred_eq_of_pos hc).symm⟩
  refine ⟨?_, ?_, ?_, ?_⟩
  · simp only [splitEvenly, List.length_map, List.length_range]
  · simp only [splitEvenly]
    refine (List.chain'_map (fun idx : ℕ =>
      (round5 ((idx : ℚ) * (duration / ((n + 1 : ℕ) : ℚ))),
       round5 (if idx = n + 1 - 1 then duration
         else ((idx : ℚ) + 1) * (duration / ((n + 1 : ℕ) : ℚ)))))).2 ?_
    rw [List.chain'_range_succ]
    intro m hm
    simp only
    rw [if_neg (by omega : ¬ m = n + 1 - 1)]
    have hcast : ((m : ℚ) + 1) = ((m + 1 : ℕ) : ℚ) := by push_cast; ring
    rw [hcast]
  · simp only [splitEvenly, List.head?_map, List.head?_range]
    simp [round5_zero]
  · simp only [splitEvenly, List.getLast?_map, List.getLast?_range]
    simp

theorem splitEvenly_spec_witness :
    0 < 2 ∧
    (splitEvenly 10 2).length = 2 ∧
    List.Chain' (fun a b : TimedInterval => a.2 = b.1) (splitEvenly 10 2) ∧
    (splitEvenly 10 2).head?.map Prod.fst = some 0 ∧
    (splitEvenly 10 2).getLast?.map Prod.snd = some (round5 10) :=
  ⟨by decide, splitEvenly_spec 10 2 (by decide)⟩

theorem claim10_counterexample :
    splitEvenly (1/1000000) 1 = [((0 : ℚ), 0)] ∧ (0 : ℚ) ≠ 1/1000000 := by
  with_unfolding_all decide

/-! ### Fewer candidates than the target (claim C6) -/

/-- **C6 (amended).** Whenever fewer candidate segments than the target are
supplied, `_fit_segments_to_target` fails and produces no partial output: for a
non-empty input it raises the insufficient-segments error, while for an empty
input it raises the distinct no-segments-available error (both are
`RuntimeError`s in the source, but with different messages; the original claim
named only `InsufficientSegments`, see the counterexample for `M = 0`). -/
theorem fit_insufficient (segs : List TimedInterval) (target : ℕ)
    (h : segs.length < target) :
    (segs = [] → fitSegmentsToTarget segs target = Except.error FitError.noSegments) ∧
    (segs ≠ [] → fitSegmentsToTarget segs target = Except.error FitError.insufficientSegments) := by
  constructor
  · intro he
    rw [fitSegmentsToTarget, if_pos he]
  · intro he
    have hlen : (List.insertionSort startLE segs).length = segs.length :=
      List.length_insertionSort _ _
    rw [fitSegmentsToTarget, if_neg he, if_neg (by omega), if_pos (by omega)]

theorem fit_insufficient_witness :
    ([((0 : ℚ), 1)] : List TimedInterval).length < 3 ∧
    fitSegmentsToTarget [((0 : ℚ), 1)] 3 = Except.error FitError.insufficientSegments :=
  ⟨by decide, (fit_insufficient [((0 : ℚ), 1)] 3 (by decide)).2 (by decide)⟩

/-! ### Silence-log parsing (claim C3) -/

lemma parseLineInto_isSome (acc : List ℚ × List ℚ) (line : List Char)
    (h1 : Option.all (fun tok => (floatOfToken tok).isSome)
      (searchKey SILENCE_START_KEY line) = true)
    (h2 : Option.all (fun tok => (floatOfToken tok).isSome)
      (searchKey SILENCE_END_KEY line) = true) :
    ∃ acc1, parseLineInto acc line = some acc1 := by
  rw [parseLineInto]
  cases hs : searchKey SILENCE_START_KEY line with
  | none =>
    cases he : searchKey SILENCE_END_KEY line with
    | none => exact ⟨acc, rfl⟩
    | some tok =>
      rw [he] at h2
      obtain ⟨v, hv⟩ := Option.isSome_iff_exists.1 (by simpa [Option.all] using h2)
      simp only [hv]
      exact ⟨_, rfl⟩
  | some tok =>
    rw [hs] at h1
    obtain ⟨v, hv⟩ := Option.isSome_iff_exists.1 (by simpa [Option.all] using h1)
    simp only [hv]
    cases he : searchKey SILENCE_END_KEY line with
    | none => exact ⟨_, rfl⟩
    | some tok2 =>
      rw [he] at h2
      obtain ⟨v2, hv2⟩ := Option.isSome_iff_exists.1 (by simpa [Option.all] using h2)
      simp only [hv2]
      exact ⟨_, rfl⟩

lemma parseSilenceLogFrom_isSome :
    ∀ (lines : List (List Char)) (acc : List ℚ × List ℚ),
      (∀ line ∈ lines,
        Option.all (fun tok => (floatOfToken tok).isSome)
          (searchKey SILENCE_START_KEY line) = true ∧
        Option.all (fun tok => (floatOfToken tok).isSome)
          (searchKey SILENCE_END_KEY line) = true) →
      (parseSilenceLogFrom acc lines).isSome := by
  intro lines
  induction lines with
  | nil => intro acc _; simp [parseSilenceLogFrom]
  | cons line rest ih =>
    intro acc hall
    obtain ⟨h1, h2⟩ := hall line (List.mem_cons_self _ _)
    obtain ⟨acc1, hacc1⟩ := parseLineInto_isSome acc line h1 h2
    simp only [parseSilenceLogFrom, hacc1]
    exact ih acc1 (fun l hl => hall l (List.mem_cons_of_mem _ hl))

/-- **C3 (amended).** `_parse_silence_log` returns normally provided every
numeric token matched by either regex is a parseable number (at most one dot
and at least one digit — all `[0-9.]+` tokens the patterns can capture except
degenerate ones like `"1.2.3"` or `"."`); lines matching neither pattern
leave the accumulators unchanged.  The original claim asserted that a
malformed matched token is skipped; in fact `float()` raises `ValueError`
and the whole parse fails, see the counterexample. -/
theorem parseSilenceLog_total (lines : List (List Char))
    (h : ∀ line ∈ lines,
      Option.all (fun tok => (floatOfToken tok).isSome)
        (searchKey SILENCE_START_KEY line) = true ∧
      Option.all (fun tok => (floatOfToken tok).isSome)
        (searchKey SILENCE_END_KEY line) = true) :
    (parseSilenceLog lines).isSome ∧
    (∀ (acc : List ℚ × List ℚ) (line : List Char),
      searchKey SILENCE_START_KEY line = none →
      searchKey SILENCE_END_KEY line = none →
      parseLineInto acc line = some acc) := by
  constructor
  · exact parseSilenceLogFrom_isSome lines ([], []) h
  · intro acc line hst hen
    rw [parseLineInto]
    rw [hst, hen]

theorem parseSilenceLog_total_witness :
    (∀ line ∈ [("silence_start: 1.5").toList, ("frame info").toList,
        ("silence_end: 2.").toList],
      Option.all (fun tok => (floatOfToken tok).isSome)
        (searchKey SILENCE_START_KEY line) = true ∧
      Option.all (fun tok => (floatOfToken tok).isSome)
        (searchKey SILENCE_END_KEY line) = true) ∧
    (parseSilenceLog [("silence_start: 1.5").toList, ("frame info").toList,
      ("silence_end: 2.").toList]).isSome :=
  ⟨by with_unfolding_all decide,
   (parseSilenceLog_total _ (by with_unfolding_all decide)).1⟩

theorem claim3_counterexample :
    parseSilenceLog [("silence_start: 1.2.3").toList] = none ∧
    parseSilenceLog [("silence_start:\u00A01.2.3").toList] = none ∧
    parseSilenceLog [("silence_start:\u00A05").toList] = some ([5], []) := by
  refine ⟨?_, ?_, ?_⟩ <;> with_unfolding_all decide

/-! ### Structural properties of merging and fitting (claims C1, C5) -/

lemma coalescedRun_self {l : List TimedInterval} {x : TimedInterval} (hx : x ∈ l) :
    coalescedRun l x := by
  obtain ⟨⟨i, hil⟩, hg⟩ := List.mem_iff_get.1 hx
  have hgi : l.get? i = some x := by rw [List.get?_eq_get hil, hg]
  exact ⟨i, i, x, x, le_refl _, hgi, hgi, rfl, rfl⟩

lemma valid_nonoverlap_sorted {l : List TimedInterval}
    (hv : ValidIntervals l) (hn : Nonoverlap l) : SortedNonoverlap l := by
  induction l with
  | nil => exact List.chain'_nil
  | cons a tl ih =>
    cases tl with
    | nil => exact List.chain'_singleton _
    | cons b tl2 =>
      obtain ⟨hab, hchain⟩ := List.chain'_cons.1 hn
      have ha := hv a (List.mem_cons_self _ _)
      exact List.chain'_cons.2 ⟨⟨by linarith, hab⟩,
        ih (fun x hx => hv x (List.mem_cons_of_mem _ hx)) hchain⟩

lemma nonoverlap_pairwise : ∀ {l : List TimedInterval}, ValidIntervals l → Nonoverlap l →
    List.Pairwise (fun a b : TimedInterval => a.2 ≤ b.1) l := by
  intro l
  induction l with
  | nil => intro _ _; exact List.Pairwise.nil
  | cons a tl ih =>
    intro hv hn
    have hv' : ValidIntervals tl := fun x hx => hv x (List.mem_cons_of_mem _ hx)
    have hn' : Nonoverlap tl := (List.chain'_cons'.1 hn).2
    have hpw := ih hv' hn'
    refine List.pairwise_cons.2 ⟨?_, hpw⟩
    intro b hb
    cases tl with
    | nil => simp at hb
    | cons c tl2 =>
      have hac : a.2 ≤ c.1 := (List.chain'_cons.1 hn).1
      rcases List.mem_cons.1 hb with rfl | hb2
      · exact hac
      · have hcb : c.2 ≤ b.1 := (List.pairwise_cons.1 hpw).1 b hb2
        have hc := hv c (List.mem_cons_of_mem _ (List.mem_cons_self _ _))
        linarith

lemma pairwise_get?_rel {R : TimedInterval → TimedInterval → Prop} :
    ∀ {l : List TimedInterval}, List.Pairwise R l →
      ∀ {i j : ℕ} {p q : TimedInterval}, i < j →
        l.get? i = some p → l.get? j = some q → R p q := by
  intro l
  induction l with
  | nil => intro _ i j p q _ hp _; simp at hp
  | cons a tl ih =>
    intro hpw i j p q hij hp hq
    obtain ⟨hhead, htail⟩ := List.pairwise_cons.1 hpw
    cases i with
    | zero =>
      simp only [List.get?_cons_zero, Option.some_inj] at hp
      obtain ⟨j0, rfl⟩ : ∃ j0, j = j0 + 1 := ⟨j - 1, by omega⟩
      simp only [List.get?_cons_succ] at hq
      exact hp ▸ hhead q (List.get?_mem hq)
    | succ i0 =>
      obtain ⟨j0, rfl⟩ : ∃ j0, j = j0 + 1 := ⟨j - 1, by omega⟩
      simp only [List.get?_cons_succ] at hp hq
      exact ih htail (by omega) hp hq

lemma coalescedRun_trans {segs mid : List TimedInterval}
    (hv : ValidIntervals segs) (hn : Nonoverlap segs)
    (hmid : ∀ z ∈ mid, coalescedRun segs z) {y : TimedInterval}
    (hy : coalescedRun mid y) (hvy : y.1 < y.2) : coalescedRun segs y := by
  obtain ⟨i, j, p, q, hij, hp, hq, h1, h2⟩ := hy
  obtain ⟨a, b, pa, pb, hab, hpa, hpb, hp1, hp2⟩ := hmid p (List.get?_mem hp)
  obtain ⟨c, d0, qc, qd, hcd, hqc, hqd, hq1, hq2⟩ := hmid q (List.get?_mem hq)
  refine ⟨a, d0, pa, qd, ?_, hpa, hqd, by rw [h1, hp1], by rw [h2, hq2]⟩
  by_contra had
  push_neg at had
  have hrel : qd.2 ≤ pa.1 :=
    pairwise_get?_rel (nonoverlap_pairwise hv hn) had hqd hpa
  rw [← hq2, ← h2, ← hp1, ← h1] at hrel
  linarith

lemma mergeAdjacentAux_spec (g : ℚ) :
    ∀ (rest : List TimedInterval) (cur : TimedInterval),
      ValidIntervals (cur :: rest) → Nonoverlap (cur :: rest) →
      ValidIntervals (mergeAdjacentAux g cur rest) ∧
      Nonoverlap (mergeAdjacentAux g cur rest) ∧
      (∃ h0 tl2, mergeAdjacentAux g cur rest = h0 :: tl2 ∧ h0.1 = cur.1) ∧
      (∀ y ∈ mergeAdjacentAux g cur rest, coalescedRun (cur :: rest) y) := by
  intro rest
  induction rest with
  | nil =>
    intro cur hv _
    refine ⟨hv, List.chain'_singleton _, ⟨cur, [], rfl, rfl⟩, ?_⟩
    intro y hy
    rcases List.mem_singleton.1 hy with rfl
    exact coalescedRun_self (List.mem_singleton.2 rfl)
  | cons p tl ih =>
    intro cur hv hn
    obtain ⟨s, e⟩ := p
    have hcv : cur.1 < cur.2 := hv cur (List.mem_cons_self _ _)
    have hsev : s < e := hv (s, e) (List.mem_cons_of_mem _ (List.mem_cons_self _ _))
    have hcs : cur.2 ≤ s := (List.chain'_cons'.1 hn).1 _ rfl
    have hn' : Nonoverlap ((s, e) :: tl) := (List.chain'_cons'.1 hn).2
    have hv' : ValidIntervals ((s, e) :: tl) :=
      fun x hx => hv x (List.mem_cons_of_mem _ hx)
    simp only [mergeAdjacentAux]
    by_cases h1 : s - cur.2 ≤ g
    · rw [if_pos h1]
      have hmax : max cur.2 e = e := max_eq_right (by linarith)
      have hv2 : ValidIntervals ((cur.1, max cur.2 e) :: tl) := by
        intro x hx
        rcases List.mem_cons.1 hx with rfl | hx
        · show cur.1 < max cur.2 e
          rw [hmax]; linarith
        · exact hv' x (List.mem_cons_of_mem _ hx)
      have hn2 : Nonoverlap ((cur.1, max cur.2 e) :: tl) := by
        refine List.chain'_cons'.2 ⟨?_, (List.chain'_cons'.1 hn').2⟩
        intro y hy
        show max cur.2 e ≤ y.1
        rw [hmax]
        exact (List.chain'_cons'.1 hn').1 y hy
      obtain ⟨ho1, ho2, ho3, ho4⟩ := ih (cur.1, max cur.2 e) hv2 hn2
      refine ⟨ho1, ho2, ?_, ?_⟩
      · obtain ⟨h0, tl2, heq, hh⟩ := ho3
        exact ⟨h0, tl2, heq, hh⟩
      · intro y hy
        obtain ⟨i, j, pp, qq, hij, hp, hq, hy1, hy2⟩ := ho4 y hy
        cases i with
        | zero =>
          simp only [List.get?_cons_zero, Option.some_inj] at hp
          cases j with
          | zero =>
            simp only [List.get?_cons_zero, Option.some_inj] at hq
            refine ⟨0, 1, cur, (s, e), by omega, rfl, rfl, ?_, ?_⟩
            · rw [hy1, ← hp]
            · rw [hy2, ← hq]
              show (cur.1, max cur.2 e).2 = e
              simpa using hmax
          | succ j0 =>
            simp only [List.get?_cons_succ] at hq
            refine ⟨0, j0 + 2, cur, qq, by omega, rfl, ?_, ?_, hy2⟩
            · show ((s, e) :: tl).get? (j0 + 1) = some qq
              simpa using hq
            · rw [hy1, ← hp]
        | succ i0 =>
          obtain ⟨j0, rfl⟩ : ∃ j0, j = j0 + 1 := ⟨j - 1, by omega⟩
          simp only [List.get?_cons_succ] at hp hq
          refine ⟨i0 + 2, j0 + 2, pp, qq, by omega, ?_, ?_, hy1, hy2⟩
          · show ((s, e) :: tl).get? (i0 + 1) = some pp
            simpa using hp
          · show ((s, e) :: tl).get? (j0 + 1) = some qq
            simpa using hq
    · rw [if_neg h1]
      obtain ⟨ho1, ho2, ho3, ho4⟩ := ih (s, e) hv' hn'
      obtain ⟨h0, tl2, heq, hh⟩ := ho3
      refine ⟨?_, ?_, ⟨cur, mergeAdjacentAux g (s, e) tl, rfl, rfl⟩, ?_⟩
      · intro x hx
        rcases List.mem_cons.1 hx with rfl | hx
        · exact hcv
        · exact ho1 x hx
      · refine List.chain'_cons'.2 ⟨?_, ho2⟩
        intro y hy
        rw [heq] at hy
        simp only [List.head?_cons, Option.mem_def, Option.some_inj] at hy
        rw [← hy, hh]
        exact hcs
      · intro y hy
        rcases List.mem_cons.1 hy with rfl | hy
        · exact coalescedRun_self (List.mem_cons_self _ _)
        · obtain ⟨i, j, pp, qq, hij, hp, hq, hy1, hy2⟩ := ho4 y hy
          exact ⟨i + 1, j + 1, pp, qq, by omega, by simpa using hp, by simpa using hq,
            hy1, hy2⟩

lemma mergeAdjacent_spec (l : List TimedInterval) (g : ℚ) (hne : l ≠ [])
    (hv : ValidIntervals l) (hn : Nonoverlap l) :
    ValidIntervals (mergeAdjacent l g) ∧ Nonoverlap (mergeAdjacent l g) ∧
    mergeAdjacent l g ≠ [] ∧ (∀ y ∈ mergeAdjacent l g, coalescedRun l y) := by
  cases l with
  | nil => exact absurd rfl hne
  | cons h t =>
    obtain ⟨ho1, ho2, ⟨h0, tl2, heq, _⟩, ho4⟩ := mergeAdjacentAux_spec g t h hv hn
    exact ⟨ho1, ho2, by rw [mergeAdjacent, heq]; simp, ho4⟩

lemma fitLoop_spec (segs0 : List TimedInterval) (hv0 : ValidIntervals segs0)
    (hn0 : Nonoverlap segs0) (target : ℕ) :
    ∀ (gaps : List ℚ) (best : List TimedInterval),
      ValidIntervals best → Nonoverlap best → best ≠ [] →
      (∀ y ∈ best, coalescedRun segs0 y) →
      ValidIntervals (fitLoop best gaps target) ∧
      Nonoverlap (fitLoop best gaps target) ∧ fitLoop best gaps target ≠ [] ∧
      (∀ y ∈ fitLoop best gaps target, coalescedRun segs0 y) := by
  intro gaps
  induction gaps with
  | nil => intro best hv hn hne hcr; exact ⟨hv, hn, hne, hcr⟩
  | cons g rest ih =>
    intro best hv hn hne hcr
    obtain ⟨hm1, hm2, hm3, hm4⟩ := mergeAdjacent_spec best g hne hv hn
    have hcr' : ∀ y ∈ mergeAdjacent best g, coalescedRun segs0 y := by
      intro y hy
      exact coalescedRun_trans hv0 hn0 hcr (hm4 y hy) (hm1 y hy)
    rw [fitLoop]
    by_cases hlen : (mergeAdjacent best g).length ≤ target
    · rw [if_pos hlen]; exact ⟨hm1, hm2, hm3, hcr'⟩
    · rw [if_neg hlen]; exact ih _ hm1 hm2 hm3 hcr'

/-- **C1 (amended).** For every non-overlapping, start-sorted input of `M`
non-degenerate intervals with `M ≥ N ≥ 1`, `_fit_segments_to_target` either
returns a sequence of exactly `N` intervals — each the coalescing of a
contiguous run of input intervals, still sorted by start and non-overlapping —
or fails with the unable-to-reduce error.  (The original claim asserted it
always returns `N` intervals; a merge pass can overshoot below `N` and make
the fitter raise instead, see the counterexample.)  It never returns a count
different from `N`. -/
theorem fit_exact_count (segs : List TimedInterval) (target : ℕ)
    (hv : ValidIntervals segs) (hsn : SortedNonoverlap segs)
    (ht : 1 ≤ target) (hM : target ≤ segs.length) :
    fitSegmentsToTarget segs target = Except.error FitError.unableToReduce ∨
    ∃ l, fitSegmentsToTarget segs target = Except.ok l ∧
      l.length = target ∧ SortedNonoverlap l ∧ ∀ y ∈ l, coalescedRun segs y := by
  have hne : segs ≠ [] := by
    intro h
    rw [h] at hM
    simp at hM
    omega
  have hn : Nonoverlap segs := hsn.imp (fun a b hab => hab.2)
  have hsorted : List.Sorted startLE segs :=
    List.chain'_iff_pairwise.1 (hsn.imp (fun a b hab => hab.1))
  have hsort_eq : List.insertionSort startLE segs = segs :=
    List.Sorted.insertionSort_eq hsorted
  rw [fitSegmentsToTarget, if_neg hne, hsort_eq]
  by_cases hEq : segs.length = target
  · rw [if_pos hEq]
    exact Or.inr ⟨segs, rfl, hEq, hsn, fun y hy => coalescedRun_self hy⟩
  · rw [if_neg hEq, if_neg (by omega)]
    obtain ⟨hv1, hn1, hne1, hcr1⟩ := fitLoop_spec segs hv hn target
      MERGE_GAPS_SECONDS segs hv hn hne (fun y hy => coalescedRun_self hy)
    simp only [fitFinish]
    by_cases htr : target < (fitLoop segs MERGE_GAPS_SECONDS target).length
    · rw [if_pos htr]
      have hlen : ((fitLoop segs MERGE_GAPS_SECONDS target).take target).length = target := by
        rw [List.length_take]
        omega
      rw [if_neg (by omega)]
      refine Or.inr ⟨_, rfl, hlen, (valid_nonoverlap_sorted hv1 hn1).take _, ?_⟩
      intro y hy
      exact hcr1 y (List.take_subset _ _ hy)
    · rw [if_neg htr]
      by_cases hlt : (fitLoop segs MERGE_GAPS_SECONDS target).length < target
      · rw [if_pos hlt]
        exact Or.inl rfl
      · rw [if_neg hlt]
        exact Or.inr ⟨_, rfl, by omega, valid_nonoverlap_sorted hv1 hn1, hcr1⟩

theorem fit_exact_count_witness :
    ValidIntervals [((0 : ℚ), 1), (2, 3)] ∧ SortedNonoverlap [((0 : ℚ), 1), (2, 3)] ∧
    1 ≤ 2 ∧ 2 ≤ ([((0 : ℚ), 1), (2, 3)] : List TimedInterval).length ∧
    (fitSegmentsToTarget [((0 : ℚ), 1), (2, 3)] 2 = Except.error FitError.unableToReduce ∨
     ∃ l, fitSegmentsToTarget [((0 : ℚ), 1), (2, 3)] 2 = Except.ok l ∧
       l.length = 2 ∧ SortedNonoverlap l ∧
       ∀ y ∈ l, coalescedRun [((0 : ℚ), 1), (2, 3)] y) :=
  ⟨by with_unfolding_all decide,
   List.chain'_cons.2 ⟨by with_unfolding_all decide, List.chain'_singleton _⟩,
   by decide, by decide,
   fit_exact_count [((0 : ℚ), 1), (2, 3)] 2 (by with_unfolding_all decide)
     (List.chain'_cons.2 ⟨by with_unfolding_all decide, List.chain'_singleton _⟩)
     (by decide) (by decide)⟩

theorem claim1_counterexample :
    ValidIntervals [((0 : ℚ), 1/10), (11/100, 2/10), (21/100, 3/10)] ∧
    SortedNonoverlap [((0 : ℚ), 1/10), (11/100, 2/10), (21/100, 3/10)] ∧
    1 ≤ 2 ∧ 2 ≤ ([((0 : ℚ), 1/10), (11/100, 2/10), (21/100, 3/10)] : List TimedInterval).length ∧
    fitSegmentsToTarget [((0 : ℚ), 1/10), (11/100, 2/10), (21/100, 3/10)] 2 =
      Except.error FitError.unableToReduce :=
  ⟨by with_unfolding_all decide,
   List.chain'_cons.2 ⟨by with_unfolding_all decide,
     List.chain'_cons.2 ⟨by with_unfolding_all decide, List.chain'_singleton _⟩⟩,
   by decide, by decide, by with_unfolding_all decide⟩

/-! ### Scenario B (claim C5) -/

lemma mergeAux_step_merge (g a b s e : ℚ) (rest : List TimedInterval)
    (h1 : s - b ≤ g) (h2 : b ≤ e) :
    mergeAdjacentAux g (a, b) ((s, e) :: rest) = mergeAdjacentAux g (a, e) rest := by
  simp only [mergeAdjacentAux]
  rw [if_pos h1, max_eq_right h2]

lemma mergeAux_step_new (g a b s e : ℚ) (rest : List TimedInterval)
    (h1 : g < s - b) :
    mergeAdjacentAux g (a, b) ((s, e) :: rest) = (a, b) :: mergeAdjacentAux g (s, e) rest := by
  simp only [mergeAdjacentAux]
  rw [if_neg (not_le.2 h1)]

lemma mergeGaps_head :
    MERGE_GAPS_SECONDS = (3/50 : ℚ) :: (List.range' 70 24 10).map (fun n => (n : ℚ) / 1000) := by
  with_unfolding_all decide

/-- **C5.** Scenario B: for 12 candidate speech segments whose 11 gaps
alternate 40 ms and 500 ms, with target 6, the fitter merges exactly the
40 ms-gap adjacent pairs at the smallest eligible threshold (60 ms, the first
entry of `MERGE_GAPS_SECONDS`) and returns exactly those 6 pairwise unions; no
pair separated by a 500 ms gap is merged. -/
theorem scenarioB
    (s0 e0 s1 e1 s2 e2 s3 e3 s4 e4 s5 e5 s6 e6 s7 e7 s8 e8 s9 e9 s10 e10 s11 e11 : ℚ)
    (hv0 : s0 < e0) (hv1 : s1 < e1) (hv2 : s2 < e2) (hv3 : s3 < e3)
    (hv4 : s4 < e4) (hv5 : s5 < e5) (hv6 : s6 < e6) (hv7 : s7 < e7)
    (hv8 : s8 < e8) (hv9 : s9 < e9) (hv10 : s10 < e10) (hv11 : s11 < e11)
    (hg1 : s1 - e0 = 1/25) (hg2 : s2 - e1 = 1/2) (hg3 : s3 - e2 = 1/25)
    (hg4 : s4 - e3 = 1/2) (hg5 : s5 - e4 = 1/25) (hg6 : s6 - e5 = 1/2)
    (hg7 : s7 - e6 = 1/25) (hg8 : s8 - e7 = 1/2) (hg9 : s9 - e8 = 1/25)
    (hg10 : s10 - e9 = 1/2) (hg11 : s11 - e10 = 1/25) :
    fitSegmentsToTarget
      [(s0, e0), (s1, e1), (s2, e2), (s3, e3), (s4, e4), (s5, e5),
       (s6, e6), (s7, e7), (s8, e8), (s9, e9), (s10, e10), (s11, e11)] 6 =
    Except.ok [(s0, e1), (s2, e3), (s4, e5), (s6, e7), (s8, e9), (s10, e11)] := by
  have hchain : List.Chain' startLE
      [(s0, e0), (s1, e1), (s2, e2), (s3, e3), (s4, e4), (s5, e5),
       (s6, e6), (s7, e7), (s8, e8), (s9, e9), (s10, e10), (s11, e11)] := by
    simp only [List.chain'_cons, List.chain'_singleton, and_true, startLE]
    exact ⟨by linarith, by linarith, by linarith, by linarith, by linarith, by linarith,
      by linarith, by linarith, by linarith, by linarith, by linarith⟩
  have hsort := List.Sorted.insertionSort_eq (List.chain'_iff_pairwise.1 hchain)
  have hmerged : mergeAdjacent
      [(s0, e0), (s1, e1), (s2, e2), (s3, e3), (s4, e4), (s5, e5),
       (s6, e6), (s7, e7), (s8, e8), (s9, e9), (s10, e10), (s11, e11)] ((3 : ℚ)/50) =
      [(s0, e1), (s2, e3), (s4, e5), (s6, e7), (s8, e9), (s10, e11)] := by
    show mergeAdjacentAux ((3 : ℚ)/50) (s0, e0)
      [(s1, e1), (s2, e2), (s3, e3), (s4, e4), (s5, e5),
       (s6, e6), (s7, e7), (s8, e8), (s9, e9), (s10, e10), (s11, e11)] = _
    rw [mergeAux_step_merge _ _ _ _ _ _ (by linarith) (by linarith),
        mergeAux_step_new _ _ _ _ _ _ (by linarith),
        mergeAux_step_merge _ _ _ _ _ _ (by linarith) (by linarith),
        mergeAux_step_new _ _ _ _ _ _ (by linarith),
        mergeAux_step_merge _ _ _ _ _ _ (by linarith) (by linarith),
        mergeAux_step_new _ _ _ _ _ _ (by linarith),
        mergeAux_step_merge _ _ _ _ _ _ (by linarith) (by linarith),
        mergeAux_step_new _ _ _ _ _ _ (by linarith),
        mergeAux_step_merge _ _ _ _ _ _ (by linarith) (by linarith),
        mergeAux_step_new _ _ _ _ _ _ (by linarith),
        mergeAux_step_merge _ _ _ _ _ _ (by linarith) (by linarith)]
    simp only [mergeAdjacentAux]
  rw [fitSegmentsToTarget, if_neg (by simp), hsort]
  rw [if_neg (by simp), if_neg (by simp)]
  rw [mergeGaps_head]
  rw [fitLoop, hmerged]
  rw [if_pos (by simp)]
  rw [fitFinish]
  simp

theorem scenarioB_witness :
    ((0 : ℚ) < 1 ∧ (26/25 : ℚ) < 51/25 ∧ (127/50 : ℚ) < 177/50 ∧
      (179/50 : ℚ) < 229/50 ∧ (127/25 : ℚ) < 152/25 ∧ (153/25 : ℚ) < 178/25 ∧
      (381/50 : ℚ) < 431/50 ∧ (433/50 : ℚ) < 483/50 ∧ (254/25 : ℚ) < 279/25 ∧
      (56/5 : ℚ) < 61/5 ∧ (127/10 : ℚ) < 137/10 ∧ (687/50 : ℚ) < 737/50 ∧
      (26/25 : ℚ) - 1 = 1/25 ∧ (127/50 : ℚ) - 51/25 = 1/2 ∧
      (179/50 : ℚ) - 177/50 = 1/25 ∧ (127/25 : ℚ) - 229/50 = 1/2 ∧
      (153/25 : ℚ) - 152/25 = 1/25 ∧ (381/50 : ℚ) - 178/25 = 1/2 ∧
      (433/50 : ℚ) - 431/50 = 1/25 ∧ (254/25 : ℚ) - 483/50 = 1/2 ∧
      (56/5 : ℚ) - 279/25 = 1/25 ∧ (127/10 : ℚ) - 61/5 = 1/2 ∧
      (687/50 : ℚ) - 137/10 = 1/25) ∧
    fitSegmentsToTarget
      [((0 : ℚ), 1), (26/25, 51/25), (127/50, 177/50), (179/50, 229/50),
       (127/25, 152/25), (153/25, 178/25), (381/50, 431/50), (433/50, 483/50),
       (254/25, 279/25), (56/5, 61/5), (127/10, 137/10), (687/50, 737/50)] 6 =
    Except.ok [((0 : ℚ), 51/25), (127/50, 229/50), (127/25, 178/25),
      (381/50, 483/50), (254/25, 61/5), (127/10, 737/50)] :=
  ⟨by with_unfolding_all decide,
   scenarioB 0 1 (26/25) (51/25) (127/50) (177/50) (179/50) (229/50)
     (127/25) (152/25) (153/25) (178/25) (381/50) (431/50) (433/50) (483/50)
     (254/25) (279/25) (56/5) (61/5) (127/10) (137/10) (687/50) (737/50)
     (by with_unfolding_all decide) (by with_unfolding_all decide)
     (by with_unfolding_all decide) (by with_unfolding_all decide)
     (by with_unfolding_all decide) (by with_unfolding_all decide)
     (by with_unfolding_all decide) (by with_unfolding_all decide)
     (by with_unfolding_all decide) (by with_unfolding_all decide)
     (by with_unfolding_all decide) (by with_unfolding_all decide)
     (by with_unfolding_all decide) (by with_unfolding_all decide)
     (by with_unfolding_all decide) (by with_unfolding_all decide)
     (by with_unfolding_all decide) (by with_unfolding_all decide)
     (by with_unfolding_all decide) (by with_unfolding_all decide)
     (by with_unfolding_all decide) (by with_unfolding_all decide)
     (by with_unfolding_all decide)⟩

/-! ### Silence pairing (claim C2) -/

lemma pairLoop_spec (d : ℚ) :
    ∀ (events : List (Bool × ℚ)), List.Pairwise eventLE events →
      ∀ (cur : Option ℚ) (lb : ℚ), (∀ e ∈ events, lb ≤ e.2) →
        noDanglingEnds cur.isSome events = true →
        (cur = none ∨ cur = some lb) →
        SortedNonoverlap (pairLoop d cur events) ∧
          ∀ x ∈ pairLoop d cur events, lb ≤ x.1 := by
  intro events
  induction events with
  | nil =>
    intro _ cur lb _ _ hcur
    rcases hcur with rfl | rfl
    · exact ⟨List.chain'_nil, by simp [pairLoop]⟩
    · exact ⟨List.chain'_singleton _, by simp [pairLoop]⟩
  | cons ev rest ih =>
    intro hpw cur lb hlb hnd hcur
    obtain ⟨k, ts⟩ := ev
    rw [List.pairwise_cons] at hpw
    obtain ⟨hts, hpw'⟩ := hpw
    have hlbts : lb ≤ ts := hlb (k, ts) (List.mem_cons_self _ _)
    have hlb' : ∀ e ∈ rest, ts ≤ e.2 := fun e he => hts e he
    cases k with
    | true =>
      have hnd' : noDanglingEnds true rest = true := by
        simpa [noDanglingEnds] using hnd
      rcases hcur with rfl | rfl
      · have hres := ih hpw' (some ts) ts hlb' hnd' (Or.inr rfl)
        refine ⟨hres.1, fun x hx => le_trans hlbts (hres.2 x hx)⟩
      · have hlb'' : ∀ e ∈ rest, lb ≤ e.2 := fun e he =>
          le_trans hlbts (hlb' e he)
        exact ih hpw' (some lb) lb hlb'' hnd' (Or.inr rfl)
    | false =>
      have hnd2 := hnd
      simp only [noDanglingEnds, if_false, Bool.ite_eq_true_distrib,
        Bool.and_eq_true] at hnd2
      obtain ⟨hcs, hnd'⟩ := hnd2
      have hcur' : cur = some lb := by
        rcases hcur with rfl | rfl
        · simp at hcs
        · rfl
      subst hcur'
      have hres := ih hpw' none ts hlb' hnd' (Or.inl rfl)
      constructor
      · refine List.chain'_cons'.2 ⟨?_, hres.1⟩
        intro y hy
        have hym : y ∈ pairLoop d none rest := List.mem_of_mem_head? hy
        have hty : ts ≤ y.1 := hres.2 y hym
        exact ⟨le_trans hlbts hty, hty⟩
      · intro x hx
        rcases List.mem_cons.1 hx with rfl | hx
        · exact le_refl _
        · exact le_trans hlbts (hres.2 x hx)

/-- **C2 (amended).** `_pair_silences` returns a sequence ordered by start and
non-overlapping, provided that in the timestamp-sorted event sequence every
`silence_end` event arrives while a silence start is open (so the `0.0`
fallback for a dangling END never fires).  The original claim asserted this for
every input; consecutive dangling ENDs make it false (see the
counterexample, where the second interval restarts at 0). -/
theorem pairSilences_sorted_nonoverlap (starts ends : List ℚ) (duration : ℚ)
    (h : noDanglingEnds false (sortedEvents starts ends) = true) :
    SortedNonoverlap (pairSilences starts ends duration) := by
  have hsorted : List.Pairwise eventLE (sortedEvents starts ends) :=
    List.sorted_insertionSort eventLE (eventList starts ends)
  rw [pairSilences]
  cases hev : sortedEvents starts ends with
  | nil => exact List.chain'_nil
  | cons ev tl =>
    rw [hev] at hsorted h
    obtain ⟨k, ts⟩ := ev
    have hlb : ∀ e ∈ (k, ts) :: tl, ts ≤ e.2 := by
      intro e he
      rcases List.mem_cons.1 he with rfl | he
      · exact le_refl _
      · exact (List.pairwise_cons.1 hsorted).1 e he
    exact (pairLoop_spec duration ((k, ts) :: tl) hsorted none ts hlb h (Or.inl rfl)).1

theorem pairSilences_sorted_nonoverlap_witness :
    noDanglingEnds false (sortedEvents [1, 3] [2, 4]) = true ∧
    SortedNonoverlap (pairSilences [1, 3] [2, 4] 10) :=
  ⟨by with_unfolding_all decide,
   pairSilences_sorted_nonoverlap [1, 3] [2, 4] 10 (by with_unfolding_all decide)⟩

theorem claim2_counterexample :
    pairSilences [] [1, 2] 5 = [(0, 1), (0, 2)] ∧
    ¬ SortedNonoverlap (pairSilences [] [1, 2] 5) := by
  have he : pairSilences [] [1, 2] 5 = [(0, 1), (0, 2)] := by with_unfolding_all decide
  refine ⟨he, ?_⟩
  intro hchain
  rw [SortedNonoverlap, he] at hchain
  have h1 := (List.chain'_cons.1 hchain).1.2
  norm_num at h1

theorem claim6_counterexample :
    ([] : List TimedInterval).length < 1 ∧
    fitSegmentsToTarget [] 1 = Except.error FitError.noSegments ∧
    (Except.error FitError.noSegments : Except FitError (List TimedInterval)) ≠
      Except.error FitError.insufficientSegments := by
  with_unfolding_all decide
